import Mathlib

/-!
Verification of the Mango margin accounting and liquidation engine.

This file gives a shallow embedding of the numeric and control-flow core of the
repository (the liquidator scan loop of `liquidator/src/liquidate.ts` and its
mainnet variant, the interest-rate curve of the web client, the oracle median
of `client-ts/src/client.ts` / `utils.ts`, and the valuation and order-entry
helpers of the TypeScript client), and proves properties of these definitions.

JavaScript numbers are modelled as exact rationals (`ℚ`); `Math.round` is
modelled as rounding half toward positive infinity, which is its JavaScript
semantics; a JavaScript `undefined` result is modelled as `Option.none`.
-/

namespace Mango

/-- Number of token slots of a group (two tradable assets plus the quote
currency); constant `NUM_TOKENS = 3` of `layout.ts`. -/
def NUM_TOKENS : ℕ := 3

/-- Number of tradable spot markets, `NUM_MARKETS = NUM_TOKENS - 1` of `layout.ts`. -/
def NUM_MARKETS : ℕ := NUM_TOKENS - 1

/-- JavaScript `Math.round`: round to the nearest integer, half toward
positive infinity. -/
def jsRound (q : ℚ) : ℤ := ⌊q + 1/2⌋

/-- From `utils.ts`: `nativeToUi(amount, decimals) = amount / Math.pow(10, decimals)`. -/
def nativeToUi (amount : ℚ) (decimals : ℕ) : ℚ := amount / 10 ^ decimals

/-- From the web client (`src/unnamed/part_002`, function `calculateInterest`):
the piecewise-linear interest-rate curve of the utilization
`nativeTotalBorrows / nativeTotalDeposits`, with parameters
`optimalUtil = 0.7`, `optimalInterest = 0.10`, `maxInterest = 1`. -/
def calculateInterest (nativeTotalDeposits nativeTotalBorrows : ℚ) : ℚ :=
  let optimalUtil : ℚ := 7/10
  let optimalInterest : ℚ := 1/10
  let maxInterest : ℚ := 1
  if nativeTotalDeposits < nativeTotalBorrows ∨ nativeTotalDeposits = 0 then
    maxInterest
  else
    let utilization := nativeTotalBorrows / nativeTotalDeposits
    if optimalUtil < utilization then
      let extraUtil := utilization - optimalUtil
      let slope := (maxInterest - optimalInterest) / (1 - optimalUtil)
      optimalInterest + slope * extraUtil
    else
      let slope := optimalInterest / optimalUtil
      slope * utilization

/-- Outcome of evaluating one margin account in the liquidator scan loop:
either the account is skipped, or the liquidator calls `client.liquidate`
with the given per-token deposit quantities. The code
(`liquidator/src/liquidate.ts` and `src/unnamed/part_006`) has no other
outcome and attaches no further data to either case. -/
inductive LiqAction where
  | skip : LiqAction
  | liquidate : List ℚ → LiqAction
  deriving DecidableEq

/-- The per-account evaluation step of `runLiquidator`
(`liquidator/src/liquidate.ts` lines 87-112, identical in
`src/unnamed/part_006` lines 153-169): skip when `liabsVal === 0`; otherwise
compute `collRatio = assetsVal / liabsVal`, skip when
`collRatio >= maintCollRatio`; otherwise deposit
`[0, 0, deficit * 1.01]` with `deficit = liabsVal * initCollRatio - assetsVal`. -/
def evaluateAccount (assetsVal liabsVal maintCollRatio initCollRatio : ℚ) : LiqAction :=
  if liabsVal = 0 then
    LiqAction.skip
  else
    let collRatio := assetsVal / liabsVal
    if maintCollRatio ≤ collRatio then
      LiqAction.skip
    else
      let deficit := liabsVal * initCollRatio - assetsVal
      LiqAction.liquidate [0, 0, deficit * (101/100)]

/-- From `utils.ts` / `client-ts/src/client.ts`, `getMedian(submissions)`:
filter out zero submission values, sort ascending, then return `0` for an
empty list, the sole element for a singleton, and the mean of the two middle
elements for an even count.  For an odd count `len > 1` the JavaScript code
computes `const i = len / 2` (a non-integral number, e.g. `1.5`) and returns
`values[i]`, which is `undefined`; that result is modelled as `none`. -/
def getMedian (submissions : List ℚ) : Option ℚ :=
  let values := (submissions.filter (fun s => s ≠ 0)).insertionSort (fun a b => a ≤ b)
  let len := values.length
  if len = 0 then
    some 0
  else if len = 1 then
    some (values.getD 0 0)
  else if len % 2 = 0 then
    some ((values.getD (len / 2) 0 + values.getD (len / 2 - 1) 0) / 2)
  else
    none

/-- From `client-ts/src/client.ts` / `src/unnamed/part_009`,
`MangoGroup.getPrices`: one decoded oracle median per tradable asset
(`decodeAggregatorInfo(...).submissionValue`, which is `getMedian` of the
oracle's nonempty submissions), followed by the hard-coded `1.0` for the
quote currency.  The input is the list of decoded submission values of each
oracle account; no error path exists in the source. -/
def getPrices (oracleSubmissions : List (List ℚ)) : List (Option ℚ) :=
  (oracleSubmissions.map getMedian) ++ [some 1]

/-- Side of an order passed to `client.placeOrder` by the drain loop. -/
inductive Side where
  | buy : Side
  | sell : Side
  deriving DecidableEq

/-- One `client.placeOrder` call issued by the rebalancing loop of
`drainAccount` (`src/unnamed/part_006` lines 66-84, identical in
`liquidator/src/liquidate.ts` lines 148-166). -/
structure Order where
  marketIndex : ℕ
  side : Side
  price : ℚ
  size : ℚ
  deriving DecidableEq

/-- The comparator `(a, b) => b[1] - a[1]` of `netValues.sort(...)`: pairs are
ordered by descending net value (second component). -/
def netDesc (x y : ℕ × ℚ) : Prop := y.2 ≤ x.2

instance : DecidableRel netDesc := fun x y => inferInstanceAs (Decidable (y.2 ≤ x.2))

instance : IsTotal (ℕ × ℚ) netDesc := ⟨fun a b => le_total b.2 a.2⟩

instance : IsTrans (ℕ × ℚ) netDesc := ⟨fun _ _ _ h1 h2 => le_trans h2 h1⟩

/-- The list `netValues` of the drain loop: for every tradable asset
`i < NUM_TOKENS - 1` the pair `[i, (assets[i] - liabs[i]) * prices[i]]`. -/
def netValues (assets liabs prices : ℕ → ℚ) : List (ℕ × ℚ) :=
  (List.range NUM_MARKETS).map (fun i => (i, (assets i - liabs i) * prices i))

/-- The loop body of the rebalancing step of `drainAccount` for one sorted
`netValues` entry `p = (marketIndex, netValue)`: a limit sell at
`prices[marketIndex] * 0.95` for the whole asset quantity when the net value
is positive, a limit buy at `prices[marketIndex] * 1.05` for the whole
liability quantity when it is negative, and no order when it is zero. -/
def orderOf (assets liabs prices : ℕ → ℚ) (p : ℕ × ℚ) : Option Order :=
  if 0 < p.2 then
    some ⟨p.1, Side.sell, prices p.1 * (95/100), assets p.1⟩
  else if p.2 < 0 then
    some ⟨p.1, Side.buy, prices p.1 * (105/100), liabs p.1⟩
  else
    none

/-- The rebalancing step of `drainAccount` (`src/unnamed/part_006` lines
59-84, identical in `liquidator/src/liquidate.ts` lines 141-166): sort
`netValues` descending by net value (JavaScript `Array.sort` is stable;
insertion sort with the same comparator reproduces it) and place the orders
of `orderOf` in that sorted order. -/
def rebalanceOrders (assets liabs prices : ℕ → ℚ) : List Order :=
  ((netValues assets liabs prices).insertionSort netDesc).filterMap
    (orderOf assets liabs prices)

/-- Outcome of one attempt of a retried step in the scan loop of
`src/unnamed/part_006`: one try of the evaluate-and-liquidate body (lines
152-171) or one try of the drain body (lines 186-190).  The attempt either
completes, throws an error whose `timeout` field is set, or throws any other
error. -/
inductive StepResult where
  | ok : StepResult
  | timeoutErr : StepResult
  | fatalErr : StepResult
  deriving DecidableEq

/-- Result of one of the `while (true)` retry loops around one account, and
of the whole per-account body: completed, threw out of the loop, or (for a
truncated trace) still retrying. -/
inductive AccountOutcome where
  | done : AccountOutcome
  | fatal : AccountOutcome
  | pending : AccountOutcome
  deriving DecidableEq

/-- The evaluate-and-liquidate retry loop of `src/unnamed/part_006` lines
151-180, driven by the successive outcomes of its attempts: an `ok` attempt
breaks out of the loop, a timeout error sleeps, re-fetches prices and
retries (re-entering the evaluation), and any other error is re-thrown
(`if (!e.timeout) throw e`).
`pending` stands for a trace that ends while the loop is still retrying. -/
def evalLiquidateLoop : List StepResult → AccountOutcome
  | [] => AccountOutcome.pending
  | StepResult.ok :: _ => AccountOutcome.done
  | StepResult.fatalErr :: _ => AccountOutcome.fatal
  | StepResult.timeoutErr :: rest => evalLiquidateLoop rest

/-- Number of price re-fetches (`prices = await mangoGroup.getPrices(...)`)
performed by the evaluate-and-liquidate retry loop before it exits: one per
timeout error. -/
def refetchCount : List StepResult → ℕ
  | StepResult.timeoutErr :: rest => refetchCount rest + 1
  | _ => 0

/-- The drain retry loop of `src/unnamed/part_006` lines 185-195: its
`catch (e)` has no `timeout` test, so every thrown error - timeout or not -
is caught and logged (`Failed while draining account. Trying again in 1s`),
the loop sleeps one second and retries the drain of the same account; only a
successful attempt exits the loop, no error is ever re-thrown, and no price
re-fetch happens here.
`pending` stands for a trace that ends while the loop is still retrying. -/
def drainLoop : List StepResult → AccountOutcome
  | [] => AccountOutcome.pending
  | StepResult.ok :: _ => AccountOutcome.done
  | _ :: rest => drainLoop rest

/-- Number of retries (each after a one-second sleep) performed by the drain
retry loop before it exits: one per caught error of either kind. -/
def drainRetryCount : List StepResult → ℕ
  | [] => 0
  | StepResult.ok :: _ => 0
  | _ :: rest => drainRetryCount rest + 1

/-- Trace of one account's processing in a scan cycle: the successive
attempt outcomes of the evaluate-and-liquidate loop, whether its successful
exit performed a liquidation (the `liquidated` flag set on line 170 and
tested on line 181), and - used only in that case - the successive attempt
outcomes of the drain loop. -/
structure AccountTrace where
  evalAttempts : List StepResult
  liquidated : Bool
  drainAttempts : List StepResult
  deriving DecidableEq

/-- The full per-account body of the scan loop (`src/unnamed/part_006` lines
148-196): run the evaluate-and-liquidate retry loop; an error re-thrown
there makes the whole body throw (`fatal`); otherwise, when a liquidation
happened, run the drain retry loop, which never throws. -/
def processAccount (t : AccountTrace) : AccountOutcome :=
  match evalLiquidateLoop t.evalAttempts with
  | AccountOutcome.fatal => AccountOutcome.fatal
  | AccountOutcome.pending => AccountOutcome.pending
  | AccountOutcome.done =>
    if t.liquidated then drainLoop t.drainAttempts else AccountOutcome.done

/-- One cycle of the `for (let ma of marginAccounts)` scan of
`src/unnamed/part_006` (lines 148-197), given each account's trace.
Returns how many accounts were reached and whether a re-thrown (non-timeout)
evaluate-step error aborted the cycle: such an error propagates out of the
`for` loop to the outer `try`/`catch`, so the remaining accounts are not
evaluated.  `none` models a cycle stuck in a retry loop whose trace never
exits. -/
def scanCycle : List AccountTrace → Option (ℕ × Bool)
  | [] => some (0, false)
  | t :: rest =>
    match processAccount t with
    | AccountOutcome.fatal => some (1, true)
    | AccountOutcome.pending => none
    | AccountOutcome.done => (scanCycle rest).map (fun r => (r.1 + 1, r.2))

/-- The outer `while (true)` loop of `runLiquidator`: every cycle runs inside
`try { ... } catch (e) { console.log(e) } finally { await sleep(sleepTime) }`,
so an aborted cycle is logged and the next cycle still runs. -/
def runLoop (cycles : List (List AccountTrace)) : List (Option (ℕ × Bool)) :=
  cycles.map scanCycle

/-- Modelled from the spec: the venue lot conversions
(`spotMarket.priceNumberToLots` and `spotMarket.baseSizeNumberToLots` of the
serum library) are not part of this repository's sources.  Per the spec's
"size/price must exceed venue minimum lot", the venue admits only integral
multiples of a minimum lot, so a quantity converts to a whole number of lots
by dividing by the minimum lot and discarding the remainder. -/
def toLots (quantity minLot : ℚ) : ℤ := ⌊quantity / minLot⌋

/-- The guard section of `MangoClient.placeOrder` (`src/unnamed/part_009`
lines 596-605): convert the requested price and size to lots, throw
`size too small` when the size in lots is not strictly positive, throw
`invalid price` when the price in lots is not strictly positive, and only
otherwise build and send the transaction (modelled by `Except.ok ()`; the
two throws happen before any transaction is constructed or sent). -/
def placeOrder (price size tickSize lotSize : ℚ) : Except String Unit :=
  let limitPrice := toLots price tickSize
  let maxQuantity := toLots size lotSize
  if maxQuantity ≤ 0 then
    Except.error ("size too small")
  else if limitPrice ≤ 0 then
    Except.error ("invalid price")
  else
    Except.ok ()

/-- Venue-side open-orders record as read by `MarginAccount.getValue`:
total base and quote token amounts held on one market. -/
structure OpenOrdersInfo where
  baseTokenTotal : ℚ
  quoteTokenTotal : ℚ

/-- The per-asset data of a `MangoGroup` used by valuation: deposit and
borrow indexes and mint decimals. -/
structure GroupIndexes where
  depositIndex : ℕ → ℚ
  borrowIndex : ℕ → ℚ
  mintDecimals : ℕ → ℕ

/-- The per-asset deposit and borrow shares of a `MarginAccount`. -/
structure AccountBalances where
  deposits : ℕ → ℚ
  borrows : ℕ → ℚ

/-- `MarginAccount.getNativeDeposit`: `Math.round(index.deposit * deposits[i])`. -/
def getNativeDeposit (g : GroupIndexes) (ma : AccountBalances) (i : ℕ) : ℤ :=
  jsRound (g.depositIndex i * ma.deposits i)

/-- `MarginAccount.getNativeBorrow`: `Math.round(index.borrow * borrows[i])`. -/
def getNativeBorrow (g : GroupIndexes) (ma : AccountBalances) (i : ℕ) : ℤ :=
  jsRound (g.borrowIndex i * ma.borrows i)

/-- `MarginAccount.getUiDeposit`: `nativeToUi(getNativeDeposit(i), mintDecimals[i])`. -/
def getUiDeposit (g : GroupIndexes) (ma : AccountBalances) (i : ℕ) : ℚ :=
  nativeToUi (getNativeDeposit g ma i) (g.mintDecimals i)

/-- `MarginAccount.getUiBorrow`: `nativeToUi(getNativeBorrow(i), mintDecimals[i])`. -/
def getUiBorrow (g : GroupIndexes) (ma : AccountBalances) (i : ℕ) : ℚ :=
  nativeToUi (getNativeBorrow g ma i) (g.mintDecimals i)

/-- The first loop of `MarginAccount.getValue` (`src/unnamed/part_009` lines
314-317): net deposit-minus-borrow value over all `NUM_TOKENS` slots at the
given prices (the quote slot's price is the trailing `1.0` of `getPrices`). -/
def baseValue (g : GroupIndexes) (ma : AccountBalances) (prices : ℕ → ℚ) : ℚ :=
  ((List.range NUM_TOKENS).map
    (fun i => (getUiDeposit g ma i - getUiBorrow g ma i) * prices i)).sum

/-- Contribution of one entry of `openOrdersAccounts` to `getValue`: an
`undefined` entry (`oos != undefined` fails) contributes nothing, a loaded
record contributes its base total at the market price plus its quote total. -/
def ooContribution (g : GroupIndexes) (prices : ℕ → ℚ) (i : ℕ) :
    Option OpenOrdersInfo → ℚ
  | none => 0
  | some oos =>
    nativeToUi oos.baseTokenTotal (g.mintDecimals i) * prices i +
      nativeToUi oos.quoteTokenTotal (g.mintDecimals (NUM_TOKENS - 1))

/-- `MarginAccount.getValue` (`src/unnamed/part_009` lines 308-332): the base
deposit-minus-borrow value, returned as is when `openOrdersAccounts` is
`undefined` (modelled `none`), plus the contribution of every defined entry
otherwise. -/
def getValue (g : GroupIndexes) (ma : AccountBalances) (prices : ℕ → ℚ) :
    Option (List (Option OpenOrdersInfo)) → ℚ
  | none => baseValue g ma prices
  | some oosList =>
    baseValue g ma prices +
      (oosList.enum.map (fun p => ooContribution g prices p.1 p.2)).sum

/-- `MarginAccount.loadOpenOrders` (`src/unnamed/part_009` lines 276-289):
an open-orders reference equal to the zero key (modelled by the key `0`)
loads as `undefined`; any other reference loads the venue-side record. -/
def loadOpenOrders (openOrdersKeys : List ℕ) (venue : ℕ → OpenOrdersInfo) :
    List (Option OpenOrdersInfo) :=
  openOrdersKeys.map (fun k => if k = 0 then none else some (venue k))

/-- Example asset quantities used by witnesses: one unit of asset 0. -/
def exA : ℕ → ℚ := fun i => if i = 0 then 1 else 0

/-- Example liability quantities used by witnesses: two units of asset 1. -/
def exL : ℕ → ℚ := fun i => if i = 1 then 2 else 0

/-- Example price vector used by witnesses: every asset priced at 10. -/
def exP : ℕ → ℚ := fun _ => 10

/-- Example group data used by witnesses: unit indexes, zero decimals. -/
def exG : GroupIndexes := ⟨fun _ => 1, fun _ => 1, fun _ => 0⟩

/-- Example account balances used by witnesses. -/
def exMa : AccountBalances := ⟨fun _ => 1, fun _ => 0⟩

/-- Example venue-side open-orders lookup used by witnesses. -/
def exVenue : ℕ → OpenOrdersInfo := fun _ => ⟨0, 0⟩

/-- C1: in the liquidator scan loop, an account whose liabilities value is
zero is skipped before the collateral ratio is ever formed, and an account
whose collateral ratio `assetsVal / liabsVal` is at least the group's
`maintCollRatio` is also skipped: in both cases the coordinator takes no
liquidation action on the account. -/
theorem evaluateAccount_healthy_skip (assetsVal liabsVal m i : ℚ)
    (h : liabsVal = 0 ∨ m ≤ assetsVal / liabsVal) :
    evaluateAccount assetsVal liabsVal m i = LiqAction.skip := by
  rcases h with h | h
  · simp [evaluateAccount, h]
  · by_cases hl : liabsVal = 0 <;> simp [evaluateAccount, hl, h]

/-- Witness for C1: a zero-liability account is skipped. -/
theorem evaluateAccount_healthy_skip_witness :
    ((0:ℚ) = 0 ∨ (11/10:ℚ) ≤ 3 / 0) ∧
      evaluateAccount 3 0 (11/10) (6/5) = LiqAction.skip :=
  ⟨Or.inl rfl, evaluateAccount_healthy_skip 3 0 (11/10) (6/5) (Or.inl rfl)⟩

/-- C2: the interest-rate function saturates at the maximum 1 when deposits
are zero or below borrows; below the 0.7 kink it is `(0.10 / 0.7) * u`; above
the kink it is `0.10 + ((1 - 0.10) / (1 - 0.7)) * (u - 0.7)`; in particular
utilization 0 yields rate 0, utilization 0.7 yields exactly 0.10, and
utilization 0.85 yields 0.55. -/
theorem calculateInterest_spec :
    (∀ d b : ℚ, d < b ∨ d = 0 → calculateInterest d b = 1) ∧
    (∀ d b : ℚ, 0 < d → ¬ d < b → b / d ≤ 7/10 →
      calculateInterest d b = (1/10) / (7/10) * (b / d)) ∧
    (∀ d b : ℚ, 0 < d → ¬ d < b → 7/10 < b / d →
      calculateInterest d b = 1/10 + ((1 - 1/10) / (1 - 7/10)) * (b / d - 7/10)) ∧
    calculateInterest 10 0 = 0 ∧
    calculateInterest 10 7 = 1/10 ∧
    calculateInterest 100 85 = 11/20 := by
  refine ⟨?_, ?_, ?_, by norm_num [calculateInterest], by norm_num [calculateInterest],
    by norm_num [calculateInterest]⟩
  · intro d b h
    simp only [calculateInterest]
    rw [if_pos h]
  · intro d b hd hdb hle
    simp only [calculateInterest]
    rw [if_neg (by push_neg; exact ⟨not_lt.mp hdb, hd.ne'⟩), if_neg (not_lt.mpr hle)]
  · intro d b hd hdb hgt
    simp only [calculateInterest]
    rw [if_neg (by push_neg; exact ⟨not_lt.mp hdb, hd.ne'⟩), if_pos hgt]

/-- Witness for C2: concrete points on each of the three branches. -/
theorem calculateInterest_spec_witness :
    ((0:ℚ) < 2 ∧ ¬ (2:ℚ) < 1 ∧ (1:ℚ) / 2 ≤ 7/10 ∧
      calculateInterest 2 1 = (1/10) / (7/10) * ((1:ℚ) / 2)) ∧
    ((0:ℚ) < 4 ∧ ¬ (4:ℚ) < 3 ∧ (7:ℚ)/10 < 3 / 4 ∧
      calculateInterest 4 3 = 1/10 + ((1 - 1/10) / (1 - 7/10)) * ((3:ℚ) / 4 - 7/10)) ∧
    (((2:ℚ) < 3 ∨ (2:ℚ) = 0) ∧ calculateInterest 2 3 = 1) :=
  ⟨⟨by norm_num, by norm_num, by norm_num,
      calculateInterest_spec.2.1 2 1 (by norm_num) (by norm_num) (by norm_num)⟩,
    ⟨by norm_num, by norm_num, by norm_num,
      calculateInterest_spec.2.2.1 4 3 (by norm_num) (by norm_num) (by norm_num)⟩,
    ⟨Or.inl (by norm_num), calculateInterest_spec.1 2 3 (Or.inl (by norm_num))⟩⟩

/-- C3: a liquidatable account (nonzero liabilities, ratio below maintenance)
receives a deposit in the quote slot only: the deposit list is
`[0, 0, (liabsVal * initCollRatio - assetsVal) * 1.01]`, zero in every
tradable-asset slot and the 1.01-scaled deficit in slot `NUM_TOKENS - 1`. -/
theorem evaluateAccount_liquidate_deposit (a l m i : ℚ)
    (hl : l ≠ 0) (hratio : a / l < m) :
    evaluateAccount a l m i = LiqAction.liquidate [0, 0, (l * i - a) * (101/100)] ∧
      (∀ j, j < NUM_MARKETS → List.getD [0, 0, (l * i - a) * (101/100)] j 1 = 0) ∧
      List.getD [0, 0, (l * i - a) * (101/100)] (NUM_TOKENS - 1) 0 =
        (l * i - a) * (101/100) := by
  refine ⟨?_, ?_, rfl⟩
  · simp only [evaluateAccount]
    rw [if_neg hl, if_neg (not_le.mpr hratio)]
  · intro j hj
    have hj2 : j < 2 := by simpa [NUM_MARKETS, NUM_TOKENS] using hj
    interval_cases j <;> rfl

/-- Witness for C3: a concrete liquidatable account. -/
theorem evaluateAccount_liquidate_deposit_witness :
    ((4:ℚ) ≠ 0) ∧ ((3:ℚ) / 4 < 11/10) ∧
      evaluateAccount 3 4 (11/10) (6/5) =
        LiqAction.liquidate [0, 0, ((4:ℚ) * (6/5) - 3) * (101/100)] :=
  ⟨by norm_num, by norm_num,
    (evaluateAccount_liquidate_deposit 3 4 (11/10) (6/5) (by norm_num) (by norm_num)).1⟩

/-- C5: at Scenario D of the spec (assets value 2700, liabilities value 3200,
maintenance ratio 1.1) the collateral ratio 0.84375 is below 1, yet the
liquidator takes the ordinary liquidation action: the `if (collRatio < 1)`
branch of `liquidate.ts` is an empty block, so the insolvency sub-case is
processed exactly like `1.0 ≤ ratio < maint` and no distinct flag exists
anywhere in the outcome (`LiqAction` carries none because the source
attaches none). -/
theorem insolvency_not_flagged :
    (2700:ℚ) / 3200 < 1 ∧
      evaluateAccount 2700 3200 (11/10) (6/5) =
        LiqAction.liquidate [0, 0, ((3200:ℚ) * (6/5) - 2700) * (101/100)] := by
  constructor
  · norm_num
  · norm_num [evaluateAccount]

/-- Every member of `netValues` is `(i, (assets i - liabs i) * prices i)` for
a tradable index `i`. -/
theorem netValues_mem {assets liabs prices : ℕ → ℚ} {x : ℕ × ℚ}
    (hx : x ∈ netValues assets liabs prices) :
    x.1 < NUM_MARKETS ∧ x.2 = (assets x.1 - liabs x.1) * prices x.1 := by
  simp only [netValues, List.mem_map, List.mem_range] at hx
  obtain ⟨i, hi, rfl⟩ := hx
  exact ⟨hi, rfl⟩

/-- Each tradable index contributes its pair to `netValues`. -/
theorem netValues_mem_of (assets liabs prices : ℕ → ℚ) {i : ℕ}
    (hi : i < NUM_MARKETS) :
    (i, (assets i - liabs i) * prices i) ∈ netValues assets liabs prices := by
  simp only [netValues, List.mem_map, List.mem_range]
  exact ⟨i, hi, rfl⟩

/-- An order produced by `orderOf` carries the market index of its pair and
is generated only from a pair with nonzero net value. -/
theorem orderOf_some {assets liabs prices : ℕ → ℚ} {x : ℕ × ℚ} {o : Order}
    (h : orderOf assets liabs prices x = some o) :
    o.marketIndex = x.1 ∧ x.2 ≠ 0 := by
  unfold orderOf at h
  split_ifs at h with h1 h2 <;> simp_all
  · exact ⟨h.symm ▸ rfl, ne_of_gt h1⟩
  · exact ⟨h.symm ▸ rfl, ne_of_lt h2⟩

/-- C4: during rebalancing, every placed order follows the net-value rule
(positive net value: limit sell at `0.95 * price` for the full asset
quantity; negative: limit buy at `1.05 * price` for the full liability
quantity); every tradable asset with positive (negative) net value gets its
sell (buy) order; a zero net value places no order; and the orders are
processed in descending order of net value
`(assets[i] - liabs[i]) * prices[i]`. -/
theorem rebalance_correct (assets liabs prices : ℕ → ℚ) :
    (∀ o ∈ rebalanceOrders assets liabs prices,
        o.marketIndex < NUM_MARKETS ∧
          ((0 < (assets o.marketIndex - liabs o.marketIndex) * prices o.marketIndex ∧
              o.side = Side.sell ∧ o.price = prices o.marketIndex * (95/100) ∧
              o.size = assets o.marketIndex) ∨
            ((assets o.marketIndex - liabs o.marketIndex) * prices o.marketIndex < 0 ∧
              o.side = Side.buy ∧ o.price = prices o.marketIndex * (105/100) ∧
              o.size = liabs o.marketIndex))) ∧
    (∀ i, i < NUM_MARKETS →
        (0 < (assets i - liabs i) * prices i →
          Order.mk i Side.sell (prices i * (95/100)) (assets i) ∈
            rebalanceOrders assets liabs prices) ∧
        ((assets i - liabs i) * prices i < 0 →
          Order.mk i Side.buy (prices i * (105/100)) (liabs i) ∈
            rebalanceOrders assets liabs prices) ∧
        ((assets i - liabs i) * prices i = 0 →
          ∀ o ∈ rebalanceOrders assets liabs prices, o.marketIndex ≠ i)) ∧
    (rebalanceOrders assets liabs prices).Pairwise
      (fun o u =>
        (assets u.marketIndex - liabs u.marketIndex) * prices u.marketIndex ≤
          (assets o.marketIndex - liabs o.marketIndex) * prices o.marketIndex) := by
  have hmemsort : ∀ x ∈ (netValues assets liabs prices).insertionSort netDesc,
      x.1 < NUM_MARKETS ∧ x.2 = (assets x.1 - liabs x.1) * prices x.1 := by
    intro x hx
    exact netValues_mem ((List.mem_insertionSort netDesc).mp hx)
  refine ⟨?_, ?_, ?_⟩
  · intro o ho
    rw [rebalanceOrders, List.mem_filterMap] at ho
    obtain ⟨x, hx, hfx⟩ := ho
    obtain ⟨hx1, hx2⟩ := hmemsort x hx
    unfold orderOf at hfx
    split_ifs at hfx with h1 h2
    · cases hfx
      refine ⟨hx1, Or.inl ⟨?_, rfl, rfl, rfl⟩⟩
      simpa [← hx2] using h1
    · cases hfx
      refine ⟨hx1, Or.inr ⟨?_, rfl, rfl, rfl⟩⟩
      simpa [← hx2] using h2
  · intro i hi
    have hmem : (i, (assets i - liabs i) * prices i) ∈
        (netValues assets liabs prices).insertionSort netDesc :=
      (List.mem_insertionSort netDesc).mpr (netValues_mem_of assets liabs prices hi)
    refine ⟨?_, ?_, ?_⟩
    · intro hpos
      rw [rebalanceOrders, List.mem_filterMap]
      exact ⟨_, hmem, by simp [orderOf, hpos]⟩
    · intro hneg
      rw [rebalanceOrders, List.mem_filterMap]
      exact ⟨_, hmem, by simp [orderOf, not_lt.mpr hneg.le, hneg]⟩
    · intro hzero o ho hoi
      rw [rebalanceOrders, List.mem_filterMap] at ho
      obtain ⟨x, hx, hfx⟩ := ho
      obtain ⟨hx1, hx2⟩ := hmemsort x hx
      obtain ⟨hidx, hne⟩ := orderOf_some hfx
      exact hne (by rw [hx2, ← hidx, hoi, hzero])
  · have hsorted : ((netValues assets liabs prices).insertionSort netDesc).Pairwise netDesc :=
      List.sorted_insertionSort netDesc _
    have hstrong : ((netValues assets liabs prices).insertionSort netDesc).Pairwise
        (fun x y => y.2 ≤ x.2 ∧ x.2 = (assets x.1 - liabs x.1) * prices x.1 ∧
          y.2 = (assets y.1 - liabs y.1) * prices y.1) :=
      hsorted.imp_of_mem (fun ha hb hr =>
        ⟨hr, (hmemsort _ ha).2, (hmemsort _ hb).2⟩)
    rw [rebalanceOrders]
    refine List.Pairwise.filterMap _ (fun a b hab o ho u hu => ?_) hstrong
    obtain ⟨hle, ha2, hb2⟩ := hab
    obtain ⟨hoa, _⟩ := orderOf_some ho
    obtain ⟨hub, _⟩ := orderOf_some hu
    rw [hoa, hub, ← ha2, ← hb2]
    exact hle

/-- Witness for C4: with one unit of asset 0, two units borrowed of asset 1
and all prices 10, market 0 has positive net value and receives its sell
order. -/
theorem rebalance_correct_witness :
    (0:ℕ) < NUM_MARKETS ∧ (0:ℚ) < (exA 0 - exL 0) * exP 0 ∧
      Order.mk 0 Side.sell (exP 0 * (95/100)) (exA 0) ∈ rebalanceOrders exA exL exP :=
  ⟨by norm_num [NUM_MARKETS, NUM_TOKENS], by norm_num [exA, exL, exP],
    ((rebalance_correct exA exL exP).2.1 0 (by norm_num [NUM_MARKETS, NUM_TOKENS])).1
      (by norm_num [exA, exL, exP])⟩

/-- C6 counterexample: (i) with two accounts in the cycle, the first of
which throws a non-timeout error during its evaluate-and-liquidate step,
only one account is reached - the re-thrown error aborts the whole cycle
instead of only that account, so the scan does not continue over the
remaining margin accounts of the same cycle; and (ii) a non-timeout error
during the drain step does not abort the account's processing at all - it is
caught and the drain is retried in place (here once), after which the
account completes - so it is false that non-timeout failures abort the
account and that only timeouts retry in place. -/
theorem scan_abort_counterexample :
    scanCycle [⟨[StepResult.fatalErr], false, []⟩, ⟨[StepResult.ok], false, []⟩] =
        some (1, true) ∧
      ([⟨[StepResult.fatalErr], false, []⟩, ⟨[StepResult.ok], false, []⟩] :
          List AccountTrace).length = 2 ∧
      processAccount ⟨[StepResult.ok], true, [StepResult.fatalErr, StepResult.ok]⟩ =
        AccountOutcome.done ∧
      drainRetryCount [StepResult.fatalErr, StepResult.ok] = 1 := by
  decide

/-- C6 amended: in the evaluate-and-liquidate step, a non-timeout error
aborts the rest of the scan cycle (exactly the accounts before it plus
itself are reached and the abort is reported, which the outer loop logs
before running the next cycle), while timeout errors there cause in-place
retries with one price re-fetch each, re-entering evaluation, after which
the account completes; in the drain step, every error - timeout or not - is
caught and the drain of the same account is retried in place (one logged
retry per error, no price re-fetch), the drain loop can never throw and so
never aborts the cycle; and the outer loop runs every cycle it is given. -/
theorem scan_fatal_aborts_cycle :
    (∀ pre t post, (∀ u ∈ pre, processAccount u = AccountOutcome.done) →
        evalLiquidateLoop (AccountTrace.evalAttempts t) = AccountOutcome.fatal →
        scanCycle (pre ++ t :: post) = some (pre.length + 1, true)) ∧
    (∀ n rest,
        evalLiquidateLoop (List.replicate n StepResult.timeoutErr ++ StepResult.ok :: rest) =
          AccountOutcome.done ∧
        refetchCount (List.replicate n StepResult.timeoutErr ++ StepResult.ok :: rest) = n) ∧
    (∀ errs rest, (∀ e ∈ errs, e ≠ StepResult.ok) →
        drainLoop (errs ++ StepResult.ok :: rest) = AccountOutcome.done ∧
        drainRetryCount (errs ++ StepResult.ok :: rest) = errs.length) ∧
    (∀ attempts, drainLoop attempts ≠ AccountOutcome.fatal) ∧
    (∀ cycles, (runLoop cycles).length = cycles.length) := by
  refine ⟨?_, ?_, ?_, ?_, fun cycles => List.length_map _ _⟩
  · intro pre t post hpre ht
    induction pre with
    | nil => simp [scanCycle, processAccount, ht]
    | cons u pre ih =>
      have hu : processAccount u = AccountOutcome.done := hpre u (by simp)
      have hrest := ih (fun c hc => hpre c (by simp [hc]))
      simp [scanCycle, hu, hrest]
  · intro n rest
    induction n with
    | zero => exact ⟨rfl, rfl⟩
    | succ n ih =>
      rw [List.replicate_succ, List.cons_append]
      exact ⟨ih.1, by simp [refetchCount, ih.2]⟩
  · intro errs rest h
    induction errs with
    | nil => exact ⟨rfl, rfl⟩
    | cons e errs ih =>
      have he : e ≠ StepResult.ok := h e (by simp)
      have ihr := ih (fun x hx => h x (by simp [hx]))
      cases e with
      | ok => exact absurd rfl he
      | timeoutErr => exact ⟨ihr.1, by simp [drainRetryCount, ihr.2]⟩
      | fatalErr => exact ⟨ihr.1, by simp [drainRetryCount, ihr.2]⟩
  · intro attempts
    induction attempts with
    | nil => simp [drainLoop]
    | cons e rest ih =>
      cases e with
      | ok => simp [drainLoop]
      | timeoutErr => simpa [drainLoop] using ih
      | fatalErr => simpa [drainLoop] using ih

/-- Witness for C6 amended: a concrete cycle of three accounts whose second
throws a non-timeout error during evaluation reaches exactly two accounts
and aborts (the third, whose drain would fail once and then succeed, is
never reached). -/
theorem scan_fatal_aborts_cycle_witness :
    scanCycle [⟨[StepResult.ok], false, []⟩, ⟨[StepResult.fatalErr], false, []⟩,
        ⟨[StepResult.ok], true, [StepResult.fatalErr, StepResult.ok]⟩] = some (2, true) := by
  have h := scan_fatal_aborts_cycle.1 [⟨[StepResult.ok], false, []⟩]
    ⟨[StepResult.fatalErr], false, []⟩
    [⟨[StepResult.ok], true, [StepResult.fatalErr, StepResult.ok]⟩]
    (by decide) (by decide)
  simpa using h

/-- C7 counterexample: an oracle account whose submissions are all zero
(stale or missing price) makes `getMedian` return the plain value `0`, and
`getPrices` silently places this defaulted `0` in the price vector next to
the hard-coded quote price `1`; no error value exists in the result. -/
theorem getPrices_silent_default :
    getMedian [0, 0] = some 0 ∧ getPrices [[0, 0]] = [some 0, some 1] := by
  constructor <;> norm_num [getPrices, getMedian, List.insertionSort, List.filter]

/-- C7 amended: for every oracle whose submission values are all zero,
`getMedian` returns `0`, and `getPrices` returns a price vector of defaulted
zeros followed by the quote price `1`, with no error or flag of any kind. -/
theorem getPrices_stale_defaults_to_zero :
    (∀ subs : List ℚ, (∀ x ∈ subs, x = 0) → getMedian subs = some 0) ∧
    (∀ oss : List (List ℚ), (∀ s ∈ oss, ∀ x ∈ s, x = 0) →
      getPrices oss = List.replicate oss.length (some 0) ++ [some 1]) := by
  have hmed : ∀ subs : List ℚ, (∀ x ∈ subs, x = 0) → getMedian subs = some 0 := by
    intro subs h
    have hfilter : subs.filter (fun s => s ≠ 0) = [] := by
      rw [List.filter_eq_nil_iff]
      intro a ha
      simp [h a ha]
    simp only [getMedian]
    rw [hfilter]
    simp [List.insertionSort]
  refine ⟨hmed, ?_⟩
  intro oss
  induction oss with
  | nil => intro _; simp [getPrices]
  | cons s rest ih =>
    intro h
    have h1 : getMedian s = some 0 := hmed s (fun x hx => h s (by simp) x hx)
    have h2 := ih (fun t ht x hx => h t (by simp [ht]) x hx)
    simp only [getPrices, List.map_cons, List.cons_append, h1, List.length_cons,
      List.replicate_succ] at h2 ⊢
    rw [h2]

/-- Witness for C7 amended: two stale oracles produce two silent zeros. -/
theorem getPrices_stale_defaults_to_zero_witness :
    getPrices [[0, 0], [0]] = [some 0, some 0, some 1] := by
  have h := getPrices_stale_defaults_to_zero.2 [[0, 0], [0]] (by norm_num)
  simpa using h

/-- C8: `placeOrder` throws `size too small` whenever the size in lots is
not strictly positive and `invalid price` whenever the price in lots is not
strictly positive, in both cases before any transaction is built or sent;
and for every size and price strictly exceeding the venue minimum lot, both
checks pass and the order proceeds. -/
theorem placeOrder_checks :
    (∀ p s t l : ℚ, toLots s l ≤ 0 →
      placeOrder p s t l = Except.error ("size too small")) ∧
    (∀ p s t l : ℚ, 0 < toLots s l → toLots p t ≤ 0 →
      placeOrder p s t l = Except.error ("invalid price")) ∧
    (∀ p s t l : ℚ, 0 < t → 0 < l → l < s → t < p →
      placeOrder p s t l = Except.ok ()) := by
  refine ⟨?_, ?_, ?_⟩
  · intro p s t l h
    simp [placeOrder, h]
  · intro p s t l hs hp
    simp [placeOrder, not_le.mpr hs, hp]
  · intro p s t l ht hl hls htp
    have h1 : 0 < toLots s l := by
      have hle : (1:ℚ) ≤ s / l := by
        rw [le_div_iff₀ hl]
        linarith
      have := Int.le_floor.mpr (by exact_mod_cast hle : ((1:ℤ) : ℚ) ≤ s / l)
      rw [toLots]
      omega
    have h2 : 0 < toLots p t := by
      have hle : (1:ℚ) ≤ p / t := by
        rw [le_div_iff₀ ht]
        linarith
      have := Int.le_floor.mpr (by exact_mod_cast hle : ((1:ℤ) : ℚ) ≤ p / t)
      rw [toLots]
      omega
    simp [placeOrder, not_le.mpr h1, not_le.mpr h2]

/-- Witness for C8: an order strictly above the minimum lots passes, a
zero-size order is rejected before sending. -/
theorem placeOrder_checks_witness :
    ((0:ℚ) < 1 ∧ (1:ℚ) < 5 ∧ (1:ℚ) < 10 ∧ placeOrder 10 5 1 1 = Except.ok ()) ∧
      (toLots 0 1 ≤ 0 ∧ placeOrder 10 0 1 1 = Except.error ("size too small")) :=
  ⟨⟨by norm_num, by norm_num, by norm_num,
      placeOrder_checks.2.2 10 5 1 1 (by norm_num) (by norm_num) (by norm_num) (by norm_num)⟩,
    ⟨by norm_num [toLots], placeOrder_checks.1 10 0 1 1 (by norm_num [toLots])⟩⟩

/-- The open-orders contributions of a list of entirely absent records sum
to zero, from any enumeration offset. -/
theorem ooContribution_sum_none (g : GroupIndexes) (prices : ℕ → ℚ) :
    ∀ (k : ℕ) (l : List (Option OpenOrdersInfo)), (∀ x ∈ l, x = none) →
      ((l.enumFrom k).map (fun p => ooContribution g prices p.1 p.2)).sum = 0 := by
  intro k l
  induction l generalizing k with
  | nil => intro _; simp
  | cons a l ih =>
    intro h
    have ha : a = none := h a (by simp)
    subst ha
    simp only [List.enumFrom, List.map_cons, List.sum_cons]
    rw [ih (k + 1) (fun x hx => h x (by simp [hx]))]
    simp [ooContribution]

/-- C9: an `undefined` open-orders entry contributes exactly zero to
`getValue`; the valuation is the same whether `openOrdersAccounts` is
entirely absent or consists of `undefined` entries; and an account whose
open-orders references are all the zero key (never traded) loads as all
`undefined` and is valued exactly as if open orders were absent. -/
theorem getValue_tolerates_missing_openOrders :
    (∀ g prices i, ooContribution g prices i none = 0) ∧
    (∀ g ma prices n,
      getValue g ma prices (some (List.replicate n none)) = getValue g ma prices none) ∧
    (∀ g ma prices keys venue, (∀ k ∈ keys, k = 0) →
      getValue g ma prices (some (loadOpenOrders keys venue)) =
        getValue g ma prices none) := by
  refine ⟨fun g prices i => rfl, ?_, ?_⟩
  · intro g ma prices n
    have h := ooContribution_sum_none g prices 0 (List.replicate n none) (by simp)
    simp [getValue, List.enum, h]
  · intro g ma prices keys venue h
    have hload : ∀ x ∈ loadOpenOrders keys venue, x = none := by
      intro x hx
      simp only [loadOpenOrders, List.mem_map] at hx
      obtain ⟨k, hk, rfl⟩ := hx
      simp [h k hk]
    have hsum := ooContribution_sum_none g prices 0 _ hload
    simp [getValue, List.enum, hsum]

/-- Witness for C9: a concrete never-traded account is valued identically
with and without its loaded open orders. -/
theorem getValue_tolerates_missing_openOrders_witness :
    getValue exG exMa exP (some (loadOpenOrders [0, 0] exVenue)) =
      getValue exG exMa exP none :=
  getValue_tolerates_missing_openOrders.2.2 exG exMa exP [0, 0] exVenue (by simp)

/-- C10: evaluation of `getMedian` on each shape of input: three nonzero
submissions (odd count greater than one) yield `undefined` because the code
indexes the array at the fractional position `len / 2 = 1.5`, instead of the
middle sorted value `2` that a median would give; the even, singleton, empty
and zero-filtering cases behave as the claim describes. -/
theorem getMedian_cases :
    getMedian [3, 1, 2] = none ∧
    getMedian [4, 2] = some 3 ∧
    getMedian [0, 7, 0] = some 7 ∧
    getMedian [] = some 0 ∧
    getMedian [9] = some 9 := by
  refine ⟨?_, ?_, ?_, ?_, ?_⟩ <;>
    norm_num [getMedian, List.insertionSort, List.orderedInsert, List.filter]

end Mango
